import Mathlib

/-!
A shallow embedding of the copperhead configuration loader.

The Go package walks a destination struct with reflection: `resolve`
follows a dotted field path (materializing nil intermediate pointers via
`ensureZero`), `assign` converts a raw string into the resolved field
using a fixed chain of strategies, and `Environment` / `File` / `Require`
/ `New` drive these.  Here Go types are `GoType`, runtime values are
`GoVal`, and a `reflect.Value` handle into the (mutable) destination
object is a `Path` from the root together with the declared `GoType` of
the spot it points at.  Mutation is explicit state passing of the root
`GoVal`; reflection panics are an explicit `POut.panicked` outcome.

External collaborators (the filesystem, environment lookup, the JSON
decoder, `net/url` parsing) are parameters or minimal models, marked
`Modelled from the spec`; everything else is translated directly from
the Go source.
-/

namespace Copperhead

/-- Reflection kinds, mirroring the `reflect.Kind` values the package
inspects. -/
inductive Kind where
  | stringK | intK | boolK | ptrK | structK | interfaceK | sliceK | mapK
deriving DecidableEq, Repr

mutual
/-- Go types as the package sees them.  `urlT` is `net/url.URL`,
`copperURLT` is the package's own `URL` wrapper (which implements
`encoding.TextUnmarshaler`), `textFailT` is the test suite's `textFail`
type whose `UnmarshalText` always errors.  `ifaceEmpty` is `interface` with
no methods (a `string` is assignable to it); `ifaceOther` is an interface
type a string does not implement. -/
inductive GoType where
  | stringT
  | intT
  | boolT
  | ptr (elem : GoType)
  | structT (name : String) (fields : FieldsT)
  | ifaceEmpty
  | ifaceOther (name : String)
  | urlT
  | copperURLT
  | textFailT
  | sliceT (elem : GoType)
  | mapT (key val : GoType)
deriving DecidableEq, Repr

/-- Named, ordered struct fields (a mutual inductive rather than a list
so that recursion over types stays structural). -/
inductive FieldsT where
  | nil
  | cons (name : String) (ty : GoType) (rest : FieldsT)
deriving DecidableEq, Repr
end

mutual
/-- Go runtime values.  `nilPtr` is a nil pointer, `ptrV v` a non-nil
pointer whose pointee currently holds `v`.  `ifaceNil` is a nil
interface value, `ifaceV t v` an interface holding a `v` of dynamic type
`t`.  Values of the external struct types `url.URL` / `copperhead.URL`
are kept opaque as their raw textual form; slice and map values are kept
opaque (the resolver never descends into them and no claim depends on
their contents). -/
inductive GoVal where
  | str (s : String)
  | int (n : Int)
  | bool (b : Bool)
  | nilPtr
  | ptrV (v : GoVal)
  | structV (fields : VFields)
  | ifaceNil
  | ifaceV (dynTy : GoType) (v : GoVal)
  | urlV (raw : String)
  | copperURLV (raw : String)
  | textFailV
  | sliceNilV
  | mapNilV
deriving DecidableEq, Repr

/-- Field values of a struct value, in declaration order. -/
inductive VFields where
  | nil
  | cons (name : String) (v : GoVal) (rest : VFields)
deriving DecidableEq, Repr
end

/-- Kind of a declared type (`reflect.Type.Kind`).  The three opaque
struct types all have struct kind. -/
def GoType.kind : GoType → Kind
  | .stringT => .stringK
  | .intT => .intK
  | .boolT => .boolK
  | .ptr _ => .ptrK
  | .structT _ _ => .structK
  | .ifaceEmpty => .interfaceK
  | .ifaceOther _ => .interfaceK
  | .urlT => .structK
  | .copperURLT => .structK
  | .textFailT => .structK
  | .sliceT _ => .sliceK
  | .mapT _ _ => .mapK

/-- Name of a type (`reflect.Type.Name`), used in the unknown-field
error message. -/
def GoType.typeName : GoType → String
  | .structT n _ => n
  | .urlT => "URL"
  | .copperURLT => "URL"
  | .textFailT => "textFail"
  | _ => ""

/-- Field lookup in a struct type (`reflect.Value.FieldByName`
validity and the field's declared type). -/
def FieldsT.find : FieldsT → String → Option GoType
  | .nil, _ => none
  | .cons n t rest, name => if n = name then some t else rest.find name

/-- Field lookup in a struct value. -/
def VFields.find : VFields → String → Option GoVal
  | .nil, _ => none
  | .cons n v rest, name => if n = name then some v else rest.find name

/-- Replace the value of a named field in a struct value. -/
def VFields.setField : VFields → String → GoVal → VFields
  | .nil, _, _ => .nil
  | .cons n v rest, name, w =>
    if n = name then .cons n w rest else .cons n v (rest.setField name w)

mutual
/-- The zero value of a type (`reflect.New(t).Elem`). -/
def zeroVal : GoType → GoVal
  | .stringT => .str ""
  | .intT => .int 0
  | .boolT => .bool false
  | .ptr _ => .nilPtr
  | .structT _ fs => .structV (zeroValF fs)
  | .ifaceEmpty => .ifaceNil
  | .ifaceOther _ => .ifaceNil
  | .urlT => .urlV ""
  | .copperURLT => .copperURLV ""
  | .textFailT => .textFailV
  | .sliceT _ => .sliceNilV
  | .mapT _ _ => .mapNilV

/-- Zero values of a field list. -/
def zeroValF : FieldsT → VFields
  | .nil => .nil
  | .cons n t rest => .cons n (zeroVal t) (zeroValF rest)
end

mutual
/-- Well-typedness of a value at a declared type. -/
def HasTy : GoType → GoVal → Bool
  | .stringT, .str _ => true
  | .intT, .int _ => true
  | .boolT, .bool _ => true
  | .ptr _, .nilPtr => true
  | .ptr e, .ptrV v => HasTy e v
  | .structT _ fs, .structV vs => HasTyF fs vs
  | .ifaceEmpty, .ifaceNil => true
  | .ifaceEmpty, .ifaceV t v => HasTy t v
  | .ifaceOther _, .ifaceNil => true
  | .ifaceOther _, .ifaceV t v => HasTy t v
  | .urlT, .urlV _ => true
  | .copperURLT, .copperURLV _ => true
  | .textFailT, .textFailV => true
  | .sliceT _, .sliceNilV => true
  | .mapT _ _, .mapNilV => true
  | _, _ => false

/-- Well-typedness of struct field values at a field list, including
that the names line up. -/
def HasTyF : FieldsT → VFields → Bool
  | .nil, .nil => true
  | .cons n t fs, .cons n' v vs => n = n' && HasTy t v && HasTyF fs vs
  | _, _ => false
end

/-- Whether a Go identifier is exported (first character upper case). -/
def isExported (s : String) : Bool :=
  match s.data with
  | [] => false
  | c :: _ => c.isUpper

/-- One navigation step of a handle into the destination object: enter a
named struct field, or dereference a pointer. -/
inductive Step where
  | field (name : String)
  | deref
deriving DecidableEq, Repr

/-- A handle's position: navigation steps from the root object. -/
abbrev Path := List Step

/-- Whether a `reflect.Value` at this position may be set and read back
through `Interface`.  The root object is addressable (it came from
`reflect.Indirect` of a pointer), and addressability is preserved by
field access and pointer dereference, so `CanSet` and `CanInterface`
both reduce to: no step goes through an unexported field (the read-only
flag propagates through `Field` and `Elem`). -/
def exportedPath (p : Path) : Bool :=
  p.all fun s => match s with
    | .field n => isExported n
    | .deref => true

/-- Read the value at a position of the object graph. -/
def valAt : GoVal → Path → Option GoVal
  | v, [] => some v
  | .structV vs, .field n :: p => (vs.find n).bind (fun v => valAt v p)
  | .ptrV v, .deref :: p => valAt v p
  | _, _ :: _ => none

/-- Write a value at a position of the object graph, rebuilding the
root.  Returns `none` when the position does not exist. -/
def setAt : GoVal → Path → GoVal → Option GoVal
  | _, [], x => some x
  | .structV vs, .field n :: p, x =>
    (vs.find n).bind fun sub =>
      (setAt sub p x).map fun sub' => .structV (vs.setField n sub')
  | .ptrV v, .deref :: p, x => (setAt v p x).map .ptrV
  | _, _ :: _, _ => none

mutual
/-- Whether a type is comparable in the sense of Go's `==` (slices and
maps are not; a struct is comparable when all its fields are). -/
def comparableTy : GoType → Bool
  | .sliceT _ => false
  | .mapT _ _ => false
  | .structT _ fs => comparableF fs
  | _ => true

/-- Comparability of every field type in a list. -/
def comparableF : FieldsT → Bool
  | .nil => true
  | .cons _ t rest => comparableTy t && comparableF rest
end

mutual
/-- Whether a (comparable) value equals the zero value of its declared
type, as Go's `==` on the boxed interfaces computes it.  Because one side
is always the freshly made zero value, pointers compare by nilness and
interfaces by nilness (a non-nil interface never equals the nil one, and
no dynamic values are ever compared), so no address modelling is needed. -/
def eqZeroB : GoType → GoVal → Bool
  | .stringT, .str s => s = ""
  | .intT, .int n => n = 0
  | .boolT, .bool b => b = false
  | .ptr _, .nilPtr => true
  | .ptr _, .ptrV _ => false
  | .structT _ fs, .structV vs => eqZeroFB fs vs
  | .ifaceEmpty, v => v = .ifaceNil
  | .ifaceOther _, v => v = .ifaceNil
  | .urlT, .urlV r => r = ""
  | .copperURLT, .copperURLV r => r = ""
  | .textFailT, .textFailV => true
  | _, _ => false

/-- Field-wise comparison against zero values. -/
def eqZeroFB : FieldsT → VFields → Bool
  | .nil, .nil => true
  | .cons _ t fs, .cons _ v vs => eqZeroB t v && eqZeroFB fs vs
  | _, _ => false
end

/-- Go's `zero.Interface() == v.Interface()` comparison: `none` models
the run-time panic on values of a non-comparable type, otherwise the
boolean result. -/
def eqZero (t : GoType) (v : GoVal) : Option Bool :=
  if comparableTy t then some (eqZeroB t v) else none

/-- Whether the raw `string` value is directly assignable to the target
type (`reflect.Type.AssignableTo`): only to `string` itself and to the
empty interface. -/
def stringAssignable : GoType → Bool
  | .stringT => true
  | .ifaceEmpty => true
  | _ => false

/-- The value stored by a direct assignment of a raw string. -/
def stringCoerce : GoType → String → GoVal
  | .ifaceEmpty, v => .ifaceV .stringT (.str v)
  | _, v => .str v

/-- Whether the target type is convertible to `net/url.URL`
(`target.Type().ConvertibleTo(urlType)`): only `url.URL` itself is;
the package's own `URL` wrapper has a different underlying struct. -/
def convertibleToURLType : GoType → Bool
  | .urlT => true
  | _ => false

/-- Whether a pointer to the target type implements
`encoding.TextUnmarshaler`: the package's `URL` wrapper does, and so
does the test suite's `textFail`; `net/url.URL` famously does not. -/
def implementsTextUnmarshaler : GoType → Bool
  | .copperURLT => true
  | .textFailT => true
  | _ => false

/-- Errors returned by the package, kept structured: each constructor is
one `errors.New` / `fmt.Errorf` site, and wrapping constructors carry
the wrapped error like `%w` does. -/
inductive Err where
  | notAStruct (segment : String) (k : Kind)
  | unknownField (typeName segment : String)
  | doubleIndirection (segment : String) (declared : GoType)
  | cannotSet
  | binaryErr (msg : String)
  | textErr (msg : String)
  | jsonErr (msg : String)
  | couldNotResolve (name : String) (e : Err)
  | couldNotAssign (envName name : String) (e : Err)
  | failedResolve (name : String) (e : Err)
  | isNil (name : String)
  | isEmpty (name : String)
  | missingFile (filename : String)
  | readFailed (msg : String)
  | unmarshalFile (filename msg : String)
  | errMsg (msg : String)
deriving DecidableEq, Repr

/-- Outcome of a call: normal return value, returned error, or a
reflection run-time panic. -/
inductive POut (α : Type) where
  | ok (a : α)
  | err (e : Err)
  | panicked (msg : String)
deriving DecidableEq, Repr

/-- The `ensureZero` helper.  `p` addresses the field inside the root
object `s`, `ty` is its declared type.  A nil pointer field whose
element type is itself a pointer is the unsupported-double-indirection
error; any other nil pointer field is populated with a freshly allocated
zero value (`reflect.Value.Set`, which panics on an unsettable field);
finally a pointer field is dereferenced.  Returns the possibly mutated
root together with the adjusted position and declared type. -/
def ensureZero (name : String) (s : GoVal) (p : Path) (ty : GoType) :
    GoVal × POut (Path × GoType) :=
  match ty with
  | .ptr e =>
    match valAt s p with
    | some .nilPtr =>
      if e.kind = .ptrK then
        (s, .err (.doubleIndirection name (.ptr e)))
      else if exportedPath p then
        match setAt s p (.ptrV (zeroVal e)) with
        | some s' => (s', .ok (p ++ [.deref], e))
        | none => (s, .panicked "reflect: invalid value")
      else
        (s, .panicked "reflect: Set using value obtained using unexported field")
    | some (.ptrV _) => (s, .ok (p ++ [.deref], e))
    | _ => (s, .panicked "reflect: invalid value")
  | _ => (s, .ok (p, ty))

/-- The loop of `Config.resolve` over the remaining path segments.
The current position `cur` (of declared type `curTy`) plays the role of
the reflect value `n`; the checks are, in source order: the current
value must have struct kind, the segment must name a field, and every
field except the terminal one goes through `ensureZero`. -/
def resolveLoop (s : GoVal) (curTy : GoType) (cur : Path) :
    List String → GoVal × POut (Path × GoType)
  | [] => (s, .ok (cur, curTy))
  | head :: rest =>
    match curTy with
    | .structT nm fs =>
      match fs.find head with
      | some fty =>
        match rest with
        | [] => resolveLoop s fty (cur ++ [.field head]) []
        | r :: rs =>
          match ensureZero head s (cur ++ [.field head]) fty with
          | (s', .ok (p', ty')) => resolveLoop s' ty' p' (r :: rs)
          | (s', .err e) => (s', .err e)
          | (s', .panicked m) => (s', .panicked m)
      | none => (s, .err (.unknownField (GoType.typeName (.structT nm fs)) head))
    -- `url.URL`, `copperhead.URL` and `textFail` also have struct kind,
    -- so they pass the kind check; their fields are outside the model,
    -- so a lookup in them reports an unknown field (no claim resolves
    -- into them).
    | .urlT => (s, .err (.unknownField GoType.urlT.typeName head))
    | .copperURLT => (s, .err (.unknownField GoType.copperURLT.typeName head))
    | .textFailT => (s, .err (.unknownField GoType.textFailT.typeName head))
    | other => (s, .err (.notAStruct head other.kind))

/-- Accumulating helper for `splitSegs`. -/
def splitSegsAux : List Char → List Char → List String
  | [], acc => [String.mk acc.reverse]
  | c :: cs, acc =>
    if c = '.' then String.mk acc.reverse :: splitSegsAux cs []
    else splitSegsAux cs (c :: acc)

/-- The path split `strings.Split(name, ".")`: cut the name at every
dot, keeping empty segments, and producing one (possibly empty) segment
even for the empty name. -/
def splitSegs (s : String) : List String :=
  splitSegsAux s.data []

/-- `Config.resolve`: split the dotted name and walk from the root. -/
def resolve (rootTy : GoType) (s : GoVal) (name : String) :
    GoVal × POut (Path × GoType) :=
  resolveLoop s rootTy [] (splitSegs name)

/-- Modelled from the spec: `net/url.URL.UnmarshalBinary`, the external
URL parser.  The spec fixes only that the malformed input of a lone
colon fails and that well-formed URLs round-trip, so the model rejects
that input and otherwise succeeds with the raw text. -/
def urlUnmarshalBinaryModel (v : String) : Except String String :=
  if v = ":" then .error "parse error: missing protocol scheme" else .ok v

/-- Modelled from the spec: the external structured decoder (JSON by
default) used as the per-field fallback strategy.  No claim depends on
its behaviour (the claim about the strategy chain quantifies over it);
a minimal model decoding integer and boolean literals is provided so
that `assign` is executable. -/
def jsonUnmarshalModel (data : String) (ty : GoType) (_v : GoVal) :
    Except String GoVal :=
  match ty with
  | .intT =>
    match data.toInt? with
    | some n => .ok (.int n)
    | none => .error "invalid character in numeric literal"
  | .boolT =>
    if data = "true" then .ok (.bool true)
    else if data = "false" then .ok (.bool false)
    else .error "invalid boolean literal"
  | _ => .error "unsupported value"

/-- Behaviour of `UnmarshalText` for the types that implement it: the
package's `URL` wrapper delegates to the URL binary decoder, and the
test type `textFail` always fails. -/
def unmarshalTextModel (ub : String → Except String String) :
    GoType → String → Except String GoVal
  | .copperURLT, v => (ub v).map .copperURLV
  | .textFailT, _ => .error "born to fail"
  | _, _ => .error "does not implement TextUnmarshaler"

/-- The `Config.assign` conversion chain, parameterized by the two
external decoders it calls: `ub` is `url.URL.UnmarshalBinary` and `ju`
is `json.Unmarshal` into the addressed field.  In source order: run the
target through `ensureZero`, require settability, then try direct
assignability, URL binary decoding, generic text unmarshalling, and the
JSON fallback — returning at the first applicable strategy whether it
succeeds or fails. -/
def assignWith (ub : String → Except String String)
    (ju : String → GoType → GoVal → Except String GoVal)
    (s : GoVal) (p : Path) (ty : GoType) (val : String) :
    GoVal × POut Unit :=
  match ensureZero "target" s p ty with
  | (s1, .ok (p1, ty1)) =>
    if exportedPath p1 then
      if stringAssignable ty1 then
        match setAt s1 p1 (stringCoerce ty1 val) with
        | some s2 => (s2, .ok ())
        | none => (s1, .panicked "reflect: invalid value")
      else if convertibleToURLType ty1 then
        match ub val with
        | .ok u =>
          match setAt s1 p1 (.urlV u) with
          | some s2 => (s2, .ok ())
          | none => (s1, .panicked "reflect: invalid value")
        | .error m => (s1, .err (.binaryErr m))
      else if implementsTextUnmarshaler ty1 then
        match unmarshalTextModel ub ty1 val with
        | .ok w =>
          match setAt s1 p1 w with
          | some s2 => (s2, .ok ())
          | none => (s1, .panicked "reflect: invalid value")
        | .error m => (s1, .err (.textErr m))
      else
        match ju val ty1 ((valAt s1 p1).getD (zeroVal ty1)) with
        | .ok w =>
          match setAt s1 p1 w with
          | some s2 => (s2, .ok ())
          | none => (s1, .panicked "reflect: invalid value")
        | .error m => (s1, .err (.jsonErr m))
    else (s1, .err .cannotSet)
  | (s1, .err e) => (s1, .err e)
  | (s1, .panicked m) => (s1, .panicked m)

/-- `Config.assign` with the concrete external decoders. -/
def assign (s : GoVal) (p : Path) (ty : GoType) (val : String) :
    GoVal × POut Unit :=
  assignWith urlUnmarshalBinaryModel jsonUnmarshalModel s p ty val

/-- `Config.Environment`.  The environment itself is the external
collaborator `env`; the Go `map` argument is modelled as an association
list in some iteration order.  For each entry the path is resolved
first; only then is the environment consulted, and an unset key skips
the entry. -/
def Environment (env : String → Option String) (rootTy : GoType)
    (s : GoVal) : List (String × String) → GoVal × POut Unit
  | [] => (s, .ok ())
  | (name, envName) :: rest =>
    match resolve rootTy s name with
    | (s', .ok (p, fty)) =>
      match env envName with
      | none => Environment env rootTy s' rest
      | some eVal =>
        match assign s' p fty eVal with
        | (s'', .ok ()) => Environment env rootTy s'' rest
        | (s'', .err e) => (s'', .err (.couldNotAssign envName name e))
        | (s'', .panicked m) => (s'', .panicked m)
    | (s', .err e) => (s', .err (.couldNotResolve name e))
    | (s', .panicked m) => (s', .panicked m)

/-- File loading modes (`type FileMode string`). -/
def FileMode := String
deriving DecidableEq

/-- The required file mode. -/
def FileRequired : FileMode := "required"

/-- The optional file mode. -/
def FileOptional : FileMode := "optional"

/-- Result of the external filesystem read (`ioutil.ReadFile`): data, a
does-not-exist error, or any other read error. -/
inductive ReadResult where
  | ok (data : String)
  | notExist
  | otherErr (msg : String)
deriving DecidableEq, Repr

/-- A whole-object unmarshaler (the `Unmarshaler` interface): decodes a
byte payload into the root object, returning the possibly mutated root
and an optional error. -/
def RootUnmarshaler := String → GoVal → GoVal × Option String

/-- Modelled from the spec: the default whole-object JSON decoder used
when a `nil` unmarshaler is supplied.  It is an external collaborator
and no claim depends on it, so it is opaque here (it always reports a
decode error). -/
def jsonRootUnmarshalModel : RootUnmarshaler :=
  fun _ s => (s, some "json root decoding not modelled")

/-- `Config.File`: read through the external filesystem `fs`.  A
missing file is silently skipped in optional mode and an error in any
other mode; any other read error always fails; otherwise the data is
unmarshalled into the root object. -/
def File (fs : String → ReadResult) (s : GoVal) (filename : String)
    (mode : FileMode) (unm : Option RootUnmarshaler) : GoVal × POut Unit :=
  let u := unm.getD jsonRootUnmarshalModel
  match fs filename with
  | .notExist =>
    if mode = FileOptional then (s, .ok ())
    else (s, .err (.missingFile filename))
  | .otherErr m => (s, .err (.readFailed m))
  | .ok data =>
    match u data s with
    | (s', none) => (s', .ok ())
    | (s', some m) => (s', .err (.unmarshalFile filename m))

/-- `Config.Require`.  Each name is resolved in order; a nil pointer
fails as nil, booleans always pass, and any other value is compared with
`==` against a freshly made zero value of its type — which panics for
non-comparable kinds, and also panics earlier when the value was reached
through an unexported field (its `Interface` call is illegal). -/
def Require (rootTy : GoType) (s : GoVal) : List String → GoVal × POut Unit
  | [] => (s, .ok ())
  | name :: rest =>
    match resolve rootTy s name with
    | (s', .ok (p, fty)) =>
      if fty.kind = .ptrK then
        match valAt s' p with
        | some .nilPtr => (s', .err (.isNil name))
        | some (.ptrV _) => Require rootTy s' rest
        | _ => (s', .panicked "reflect: invalid value")
      else if fty.kind = .boolK then
        Require rootTy s' rest
      else
        match valAt s' p with
        | some v =>
          if exportedPath p then
            match eqZero fty v with
            | none => (s', .panicked "runtime error: comparing uncomparable type")
            | some true => (s', .err (.isEmpty name))
            | some false => Require rootTy s' rest
          else
            (s', .panicked "reflect: Interface using value obtained from unexported field")
        | none => (s', .panicked "reflect: invalid value")
    | (s', .err e) => (s', .err (.failedResolve name e))
    | (s', .panicked m) => (s', .panicked m)

/-- The destination argument of `New`: Go's `interface` argument is
either the untyped nil or a value of some type. -/
inductive ConfArg where
  | nilConf
  | confVal (ty : GoType) (v : GoVal)

/-- A functional option: acts on the destination object (whose struct
type is fixed), possibly mutating it. -/
def ConfigOption := GoType → GoVal → GoVal × POut Unit

/-- Apply options strictly in order, stopping at the first failure. -/
def applyOptions (ty : GoType) (s : GoVal) :
    List ConfigOption → POut (GoType × GoVal)
  | [] => .ok (ty, s)
  | o :: rest =>
    match o ty s with
    | (s', .ok ()) => applyOptions ty s' rest
    | (_, .err e) => .err e
    | (_, .panicked m) => .panicked m

/-- `New`: reject a nil destination, a non-pointer destination, and a
pointer whose element is not a struct (a nil pointer dereferences to an
invalid value, whose kind is likewise not struct); then apply the
options in order.  An error outcome carries no configuration object. -/
def New (conf : ConfArg) (opts : List ConfigOption) : POut (GoType × GoVal) :=
  match conf with
  | .nilConf => .err (.errMsg "conf cannot be nil")
  | .confVal ty v =>
    if ty.kind = .ptrK then
      match ty, v with
      | .ptr e, .ptrV w =>
        if e.kind = .structK then applyOptions e w opts
        else .err (.errMsg "conf must be a pointer to a struct")
      | .ptr _, _ => .err (.errMsg "conf must be a pointer to a struct")
      | _, _ => .err (.errMsg "conf must be a pointer to a struct")
    else .err (.errMsg "conf must be a pointer to a struct")

/-! Lens lemmas about reading and writing positions of the object
graph. -/

theorem find_cons_self (n : String) (v : GoVal) (rest : VFields) :
    (VFields.cons n v rest).find n = some v := by
  simp [VFields.find]

theorem find_cons_ne (m n : String) (v : GoVal) (rest : VFields)
    (hm : m ≠ n) : (VFields.cons m v rest).find n = rest.find n := by
  simp [VFields.find, hm]

theorem setField_cons_self (n : String) (v w : GoVal) (rest : VFields) :
    (VFields.cons n v rest).setField n w = .cons n w rest := by
  simp [VFields.setField]

theorem setField_cons_ne (m n : String) (v w : GoVal) (rest : VFields)
    (hm : m ≠ n) :
    (VFields.cons m v rest).setField n w = .cons m v (rest.setField n w) := by
  simp [VFields.setField, hm]

theorem find_setField_self : ∀ (vs : VFields) (n : String) (sub w : GoVal),
    vs.find n = some sub → (vs.setField n w).find n = some w
  | .nil, n, sub, w, h => by simp [VFields.find] at h
  | .cons m v rest, n, sub, w, h => by
    by_cases hm : m = n
    · subst hm
      simp [VFields.setField, VFields.find]
    · simp only [VFields.find, if_neg hm] at h
      simp only [VFields.setField, if_neg hm, VFields.find]
      exact find_setField_self rest n sub w h

theorem valAt_append : ∀ (a b : Path) (s : GoVal),
    valAt s (a ++ b) = (valAt s a).bind (fun v => valAt v b)
  | [], b, s => by simp [valAt]
  | .field n :: a, b, s => by
    cases s <;> simp [valAt]
    case structV vs =>
      cases h : vs.find n with
      | none => simp
      | some v => simp [valAt_append a b v]
  | .deref :: a, b, s => by
    cases s <;> simp [valAt]
    case ptrV v => exact valAt_append a b v

theorem setAt_exists : ∀ (p : Path) (s v x : GoVal),
    valAt s p = some v → ∃ s', setAt s p x = some s'
  | [], s, v, x, _ => ⟨x, by simp [setAt]⟩
  | .field n :: p, s, v, x, h => by
    cases s <;> simp only [valAt, reduceCtorEq] at h
    case structV vs =>
      rcases hf : vs.find n with _ | sub
      · simp [hf] at h
      · simp only [hf, Option.some_bind] at h
        obtain ⟨s', hs'⟩ := setAt_exists p sub v x h
        exact ⟨.structV (vs.setField n s'), by simp [setAt, hf, hs']⟩
  | .deref :: p, s, v, x, h => by
    cases s <;> simp only [valAt, reduceCtorEq] at h
    case ptrV w =>
      obtain ⟨s', hs'⟩ := setAt_exists p w v x h
      exact ⟨.ptrV s', by simp [setAt, hs']⟩

theorem valAt_setAt : ∀ (p : Path) (s s' x : GoVal),
    setAt s p x = some s' → valAt s' p = some x
  | [], s, s', x, h => by
    simp only [setAt, Option.some.injEq] at h
    subst h
    simp [valAt]
  | .field n :: p, s, s', x, h => by
    cases s <;> simp only [setAt, reduceCtorEq] at h
    case structV vs =>
      rcases hf : vs.find n with _ | sub
      · simp [hf] at h
      · simp only [hf, Option.some_bind] at h
        rcases ht : setAt sub p x with _ | t
        · simp [ht] at h
        · simp only [ht, Option.map_some', Option.some.injEq] at h
          subst h
          simp only [valAt, find_setField_self vs n sub t hf, Option.some_bind]
          exact valAt_setAt p sub t x ht
  | .deref :: p, s, s', x, h => by
    cases s <;> simp only [setAt, reduceCtorEq] at h
    case ptrV w =>
      rcases ht : setAt w p x with _ | t
      · simp [ht] at h
      · simp only [ht, Option.map_some', Option.some.injEq] at h
        subst h
        simp only [valAt]
        exact valAt_setAt p w t x ht

theorem setAt_snoc_deref : ∀ (p : Path) (s w x : GoVal),
    valAt s p = some (.ptrV w) →
    setAt s (p ++ [.deref]) x = setAt s p (.ptrV x)
  | [], s, w, x, h => by
    simp only [valAt, Option.some.injEq] at h
    subst h
    simp [setAt]
  | .field n :: p, s, w, x, h => by
    cases s <;> simp only [valAt, reduceCtorEq] at h
    case structV vs =>
      rcases hf : vs.find n with _ | sub
      · simp [hf] at h
      · simp only [hf, Option.some_bind] at h
        simp [setAt, hf, setAt_snoc_deref p sub w x h]
  | .deref :: p, s, w, x, h => by
    cases s <;> simp only [valAt, reduceCtorEq] at h
    case ptrV v => simp [setAt, setAt_snoc_deref p v w x h]

/-! The materialization order: `evolvesB v w` says `w` is `v` with some
nil pointers replaced by allocated pointees.  Path resolution only ever
mutates the destination object in this direction. -/

mutual
/-- Materialization order on values. -/
def evolvesB : GoVal → GoVal → Bool
  | .nilPtr, .ptrV _ => true
  | .ptrV a, .ptrV b => evolvesB a b
  | .structV xs, .structV ys => evolvesFB xs ys
  | a, b => a == b

/-- Materialization order on struct field values. -/
def evolvesFB : VFields → VFields → Bool
  | .nil, .nil => true
  | .cons n v fs, .cons m w gs => n == m && evolvesB v w && evolvesFB fs gs
  | _, _ => false
end

mutual
theorem evolvesB_refl : ∀ (v : GoVal), evolvesB v v = true
  | .str _ => by simp [evolvesB]
  | .int _ => by simp [evolvesB]
  | .bool _ => by simp [evolvesB]
  | .nilPtr => by simp [evolvesB]
  | .ptrV a => by simp [evolvesB, evolvesB_refl a]
  | .structV xs => by simp [evolvesB, evolvesFB_refl xs]
  | .ifaceNil => by simp [evolvesB]
  | .ifaceV t v => by simp [evolvesB]
  | .urlV _ => by simp [evolvesB]
  | .copperURLV _ => by simp [evolvesB]
  | .textFailV => by simp [evolvesB]
  | .sliceNilV => by simp [evolvesB]
  | .mapNilV => by simp [evolvesB]

theorem evolvesFB_refl : ∀ (vs : VFields), evolvesFB vs vs = true
  | .nil => by simp [evolvesFB]
  | .cons n v fs => by simp [evolvesFB, evolvesB_refl v, evolvesFB_refl fs]
end

mutual
theorem evolvesB_trans : ∀ (a b c : GoVal),
    evolvesB a b = true → evolvesB b c = true → evolvesB a c = true
  | .nilPtr, b, c, h1, h2 => by
    cases b <;> simp only [evolvesB, beq_iff_eq, reduceCtorEq] at h1
    · exact h2
    · cases c <;> simp only [evolvesB, beq_iff_eq, reduceCtorEq] at h2 ⊢
  | .ptrV a, b, c, h1, h2 => by
    cases b <;> simp only [evolvesB, beq_iff_eq, reduceCtorEq] at h1
    cases c <;> simp only [evolvesB, beq_iff_eq, reduceCtorEq] at h2 ⊢
    exact evolvesB_trans a _ _ h1 h2
  | .structV xs, b, c, h1, h2 => by
    cases b <;> simp only [evolvesB, beq_iff_eq, reduceCtorEq] at h1
    cases c <;> simp only [evolvesB, beq_iff_eq, reduceCtorEq] at h2 ⊢
    exact evolvesFB_trans xs _ _ h1 h2
  | .str s, b, c, h1, h2 => by
    cases b <;> simp only [evolvesB, beq_iff_eq, GoVal.str.injEq, reduceCtorEq] at h1
    subst h1; exact h2
  | .int n, b, c, h1, h2 => by
    cases b <;> simp only [evolvesB, beq_iff_eq, GoVal.int.injEq, reduceCtorEq] at h1
    subst h1; exact h2
  | .bool x, b, c, h1, h2 => by
    cases b <;> simp only [evolvesB, beq_iff_eq, GoVal.bool.injEq, reduceCtorEq] at h1
    subst h1; exact h2
  | .ifaceNil, b, c, h1, h2 => by
    cases b <;> simp only [evolvesB, beq_iff_eq, reduceCtorEq] at h1
    exact h2
  | .ifaceV t v, b, c, h1, h2 => by
    cases b <;> simp only [evolvesB, beq_iff_eq, GoVal.ifaceV.injEq, reduceCtorEq] at h1
    obtain ⟨ht, hv⟩ := h1
    subst ht; subst hv; exact h2
  | .urlV r, b, c, h1, h2 => by
    cases b <;> simp only [evolvesB, beq_iff_eq, GoVal.urlV.injEq, reduceCtorEq] at h1
    subst h1; exact h2
  | .copperURLV r, b, c, h1, h2 => by
    cases b <;> simp only [evolvesB, beq_iff_eq, GoVal.copperURLV.injEq, reduceCtorEq] at h1
    subst h1; exact h2
  | .textFailV, b, c, h1, h2 => by
    cases b <;> simp only [evolvesB, beq_iff_eq, reduceCtorEq] at h1
    exact h2
  | .sliceNilV, b, c, h1, h2 => by
    cases b <;> simp only [evolvesB, beq_iff_eq, reduceCtorEq] at h1
    exact h2
  | .mapNilV, b, c, h1, h2 => by
    cases b <;> simp only [evolvesB, beq_iff_eq, reduceCtorEq] at h1
    exact h2

theorem evolvesFB_trans : ∀ (xs ys zs : VFields),
    evolvesFB xs ys = true → evolvesFB ys zs = true → evolvesFB xs zs = true
  | .nil, ys, zs, h1, h2 => by
    cases ys <;> simp only [evolvesFB, reduceCtorEq] at h1
    exact h2
  | .cons n v fs, ys, zs, h1, h2 => by
    cases ys <;> simp only [evolvesFB, Bool.and_eq_true, beq_iff_eq, reduceCtorEq] at h1
    cases zs <;> simp only [evolvesFB, Bool.and_eq_true, beq_iff_eq, reduceCtorEq] at h2 ⊢
    obtain ⟨⟨hn, hv⟩, hf⟩ := h1
    obtain ⟨⟨hn', hv'⟩, hf'⟩ := h2
    exact ⟨⟨hn.trans hn', evolvesB_trans v _ _ hv hv'⟩, evolvesFB_trans fs _ _ hf hf'⟩
end

theorem evolvesFB_find : ∀ (xs ys : VFields) (n : String) (v : GoVal),
    evolvesFB xs ys = true → xs.find n = some v →
    ∃ w, ys.find n = some w ∧ evolvesB v w = true
  | .nil, ys, n, v, _, hf => by simp [VFields.find] at hf
  | .cons m x fs, ys, n, v, h, hf => by
    cases ys <;> simp only [evolvesFB, Bool.and_eq_true, beq_iff_eq, reduceCtorEq] at h
    obtain ⟨⟨hm, hx⟩, hrest⟩ := h
    subst hm
    by_cases hn : m = n
    · subst hn
      simp only [find_cons_self, Option.some.injEq] at hf ⊢
      subst hf
      exact ⟨_, rfl, hx⟩
    · simp only [find_cons_ne _ _ _ _ hn] at hf ⊢
      exact evolvesFB_find fs _ n v hrest hf

theorem evolvesB_valAt : ∀ (p : Path) (s s' v : GoVal),
    evolvesB s s' = true → valAt s p = some v →
    ∃ w, valAt s' p = some w ∧ evolvesB v w = true
  | [], s, s', v, h, hv => by
    simp only [valAt, Option.some.injEq] at hv
    subst hv
    exact ⟨s', by simp [valAt], h⟩
  | .field n :: p, s, s', v, h, hv => by
    cases s <;> simp only [valAt, reduceCtorEq] at hv
    case structV xs =>
      rcases hf : xs.find n with _ | sub
      · simp [hf] at hv
      · simp only [hf, Option.some_bind] at hv
        cases s' <;> simp only [evolvesB, beq_iff_eq, reduceCtorEq] at h
        case structV ys =>
          obtain ⟨sub', hfind', hev⟩ := evolvesFB_find xs ys n sub h hf
          obtain ⟨w, hw, hvw⟩ := evolvesB_valAt p sub sub' v hev hv
          exact ⟨w, by simp [valAt, hfind', hw], hvw⟩
  | .deref :: p, s, s', v, h, hv => by
    cases s <;> simp only [valAt, reduceCtorEq] at hv
    case ptrV a =>
      cases s' <;> simp only [evolvesB, beq_iff_eq, reduceCtorEq] at h
      case ptrV b =>
        obtain ⟨w, hw, hvw⟩ := evolvesB_valAt p a b v h hv
        exact ⟨w, by simp [valAt, hw], hvw⟩

theorem setField_evolvesFB : ∀ (vs : VFields) (n : String) (sub sub' : GoVal),
    vs.find n = some sub → evolvesB sub sub' = true →
    evolvesFB vs (vs.setField n sub') = true
  | .nil, n, sub, sub', hf, _ => by simp [VFields.find] at hf
  | .cons m v fs, n, sub, sub', hf, hev => by
    by_cases hn : m = n
    · subst hn
      simp only [find_cons_self, Option.some.injEq] at hf
      subst hf
      simp [setField_cons_self, evolvesFB, hev, evolvesFB_refl fs]
    · simp only [find_cons_ne _ _ _ _ hn] at hf
      simp [setField_cons_ne _ _ _ _ _ hn, evolvesFB, evolvesB_refl v,
        setField_evolvesFB fs n sub sub' hf hev]

theorem setAt_nilPtr_evolves : ∀ (p : Path) (s s' z : GoVal),
    valAt s p = some .nilPtr → setAt s p (.ptrV z) = some s' →
    evolvesB s s' = true
  | [], s, s', z, hv, hs => by
    simp only [valAt, Option.some.injEq] at hv
    simp only [setAt, Option.some.injEq] at hs
    subst hv; subst hs
    simp [evolvesB]
  | .field n :: p, s, s', z, hv, hs => by
    cases s <;> simp only [valAt, reduceCtorEq] at hv
    case structV vs =>
      simp only [setAt] at hs
      rcases hf : vs.find n with _ | sub
      · simp [hf] at hs
      · simp only [hf, Option.some_bind] at hv hs
        rcases ht : setAt sub p (.ptrV z) with _ | t
        · simp [ht] at hs
        · simp only [ht, Option.map_some', Option.some.injEq] at hs
          subst hs
          have hev := setAt_nilPtr_evolves p sub t z hv ht
          simp [evolvesB, setField_evolvesFB vs n sub t hf hev]
  | .deref :: p, s, s', z, hv, hs => by
    cases s <;> simp only [valAt, reduceCtorEq] at hv
    case ptrV a =>
      simp only [setAt] at hs
      rcases ht : setAt a p (.ptrV z) with _ | t
      · simp [ht] at hs
      · simp only [ht, Option.map_some', Option.some.injEq] at hs
        subst hs
        simp [evolvesB, setAt_nilPtr_evolves p a t z hv ht]

/-! Well-typedness lemmas. -/

theorem findT_cons_self (n : String) (t : GoType) (rest : FieldsT) :
    (FieldsT.cons n t rest).find n = some t := by
  simp [FieldsT.find]

theorem findT_cons_ne (m n : String) (t : GoType) (rest : FieldsT)
    (hm : m ≠ n) : (FieldsT.cons m t rest).find n = rest.find n := by
  simp [FieldsT.find, hm]

mutual
theorem hasTy_zeroVal : ∀ (t : GoType), HasTy t (zeroVal t) = true
  | .stringT => by simp [zeroVal, HasTy]
  | .intT => by simp [zeroVal, HasTy]
  | .boolT => by simp [zeroVal, HasTy]
  | .ptr _ => by simp [zeroVal, HasTy]
  | .structT _ fs => by simp [zeroVal, HasTy, hasTyF_zeroValF fs]
  | .ifaceEmpty => by simp [zeroVal, HasTy]
  | .ifaceOther _ => by simp [zeroVal, HasTy]
  | .urlT => by simp [zeroVal, HasTy]
  | .copperURLT => by simp [zeroVal, HasTy]
  | .textFailT => by simp [zeroVal, HasTy]
  | .sliceT _ => by simp [zeroVal, HasTy]
  | .mapT _ _ => by simp [zeroVal, HasTy]

theorem hasTyF_zeroValF : ∀ (fs : FieldsT), HasTyF fs (zeroValF fs) = true
  | .nil => by simp [zeroValF, HasTyF]
  | .cons n t rest => by
    simp [zeroValF, HasTyF, hasTy_zeroVal t, hasTyF_zeroValF rest]
end

theorem hasTyF_find : ∀ (fs : FieldsT) (vs : VFields) (n : String) (t : GoType),
    HasTyF fs vs = true → fs.find n = some t →
    ∃ v, vs.find n = some v ∧ HasTy t v = true
  | .nil, vs, n, t, _, hf => by simp [FieldsT.find] at hf
  | .cons m ty rest, vs, n, t, h, hf => by
    cases vs <;>
      simp only [HasTyF, Bool.and_eq_true, decide_eq_true_eq, reduceCtorEq] at h
    case cons m' v vrest =>
      obtain ⟨⟨hm, hty⟩, hrest⟩ := h
      subst hm
      by_cases hn : m = n
      · subst hn
        simp only [findT_cons_self, Option.some.injEq] at hf
        subst hf
        exact ⟨v, find_cons_self _ _ _, hty⟩
      · simp only [findT_cons_ne _ _ _ _ hn] at hf
        obtain ⟨w, hw, hty'⟩ := hasTyF_find rest vrest n t hrest hf
        exact ⟨w, by rw [find_cons_ne _ _ _ _ hn]; exact hw, hty'⟩

theorem hasTy_struct_inv (nm : String) (fs : FieldsT) (v : GoVal)
    (h : HasTy (.structT nm fs) v = true) :
    ∃ vs, v = .structV vs ∧ HasTyF fs vs = true := by
  cases v <;> simp only [HasTy, reduceCtorEq] at h
  case structV vs => exact ⟨vs, rfl, h⟩

theorem hasTy_ptr_inv (e : GoType) (v : GoVal) (h : HasTy (.ptr e) v = true) :
    v = .nilPtr ∨ ∃ w, v = .ptrV w ∧ HasTy e w = true := by
  cases v <;> simp only [HasTy, reduceCtorEq] at h
  case nilPtr => exact .inl rfl
  case ptrV w => exact .inr ⟨w, rfl, h⟩

/-! Branch equations for `ensureZero`. -/

theorem ensureZero_nonptr (name : String) (s : GoVal) (p : Path) :
    ∀ (ty : GoType), ty.kind ≠ .ptrK → ensureZero name s p ty = (s, .ok (p, ty))
  | .ptr _, h => absurd rfl h
  | .stringT, _ => rfl
  | .intT, _ => rfl
  | .boolT, _ => rfl
  | .structT _ _, _ => rfl
  | .ifaceEmpty, _ => rfl
  | .ifaceOther _, _ => rfl
  | .urlT, _ => rfl
  | .copperURLT, _ => rfl
  | .textFailT, _ => rfl
  | .sliceT _, _ => rfl
  | .mapT _ _, _ => rfl

theorem ensureZero_ptrV (name : String) (s : GoVal) (p : Path) (e : GoType)
    (w : GoVal) (h : valAt s p = some (.ptrV w)) :
    ensureZero name s p (.ptr e) = (s, .ok (p ++ [.deref], e)) := by
  simp [ensureZero, h]

theorem ensureZero_nil_dbl (name : String) (s : GoVal) (p : Path) (e : GoType)
    (h : valAt s p = some .nilPtr) (he : e.kind = .ptrK) :
    ensureZero name s p (.ptr e) = (s, .err (.doubleIndirection name (.ptr e))) := by
  simp [ensureZero, h, he]

theorem ensureZero_nil_mat (name : String) (s : GoVal) (p : Path) (e : GoType)
    (h : valAt s p = some .nilPtr) (he : e.kind ≠ .ptrK)
    (hx : exportedPath p = true) :
    ∃ s', setAt s p (.ptrV (zeroVal e)) = some s' ∧
      ensureZero name s p (.ptr e) = (s', .ok (p ++ [.deref], e)) := by
  obtain ⟨s', hs'⟩ := setAt_exists p s _ (.ptrV (zeroVal e)) h
  exact ⟨s', hs', by simp [ensureZero, h, he, hx, hs']⟩

theorem ensureZero_evolves (name : String) (s : GoVal) (p : Path) (ty : GoType) :
    evolvesB s (ensureZero name s p ty).1 = true := by
  cases ty
  case ptr e =>
    rcases hv : valAt s p with _ | v
    · simp [ensureZero, hv, evolvesB_refl]
    · cases v
      case nilPtr =>
        by_cases hk : e.kind = .ptrK
        · simp [ensureZero, hv, hk, evolvesB_refl]
        · by_cases hx : exportedPath p
          · rcases hs' : setAt s p (.ptrV (zeroVal e)) with _ | s'
            · simp [ensureZero, hv, hk, hx, hs', evolvesB_refl]
            · simp only [ensureZero, hv, hk, hx, hs', if_false, if_true,
                Bool.false_eq_true, ite_false, ite_true]
              exact setAt_nilPtr_evolves p s s' (zeroVal e) hv hs'
          · simp [ensureZero, hv, hk, hx, evolvesB_refl]
      case ptrV w => simp [ensureZero, hv, evolvesB_refl]
      all_goals simp [ensureZero, hv, evolvesB_refl]
  all_goals simp [ensureZero, evolvesB_refl]

/-- Inversion of a successful `ensureZero`: either it did not mutate the
object (and dereferenced an already non-nil pointer, or left a
non-pointer field alone), or it materialized a nil pointer field with a
fresh zero value. -/
theorem ensureZero_ok_inv (name : String) (s : GoVal) (q : Path) (ty : GoType)
    (s1 : GoVal) (p2 : Path) (ty2 : GoType)
    (h : ensureZero name s q ty = (s1, .ok (p2, ty2))) :
    (s1 = s ∧ (p2 = q ∨ p2 = q ++ [.deref])) ∨
    (∃ e, ty = .ptr e ∧ valAt s q = some .nilPtr ∧
      setAt s q (.ptrV (zeroVal e)) = some s1 ∧ p2 = q ++ [.deref] ∧ ty2 = e) := by
  cases ty
  case ptr e =>
    rcases hv : valAt s q with _ | v
    · simp [ensureZero, hv] at h
    · cases v
      case nilPtr =>
        by_cases hk : e.kind = .ptrK
        · simp [ensureZero, hv, hk] at h
        · by_cases hx : exportedPath q
          · rcases hs' : setAt s q (.ptrV (zeroVal e)) with _ | s2
            · simp [ensureZero, hv, hk, hx, hs'] at h
            · simp only [ensureZero, hv, hk, hx, hs', if_false, if_true,
                Bool.false_eq_true, ite_false, ite_true, Prod.mk.injEq,
                POut.ok.injEq] at h
              obtain ⟨hs1, hp, hty⟩ := h
              subst hs1
              exact .inr ⟨e, rfl, rfl, hs', hp.symm, hty.symm⟩
          · simp [ensureZero, hv, hk, hx] at h
      case ptrV w =>
        simp only [ensureZero, hv, Prod.mk.injEq, POut.ok.injEq] at h
        obtain ⟨hs1, hp, _⟩ := h
        exact .inl ⟨hs1.symm, .inr hp.symm⟩
      all_goals simp [ensureZero, hv] at h
  all_goals
    (simp only [ensureZero, Prod.mk.injEq, POut.ok.injEq] at h
     exact .inl ⟨h.1.symm, .inl h.2.1.symm⟩)

theorem resolveLoop_evolves : ∀ (segs : List String) (s : GoVal)
    (curTy : GoType) (cur : Path),
    evolvesB s (resolveLoop s curTy cur segs).1 = true
  | [], s, _, _ => by simp [resolveLoop, evolvesB_refl]
  | head :: rest, s, curTy, cur => by
    cases curTy <;> try exact evolvesB_refl s
    case structT nm fs =>
      rcases hf : fs.find head with _ | fty
      · simp only [resolveLoop, hf]
        exact evolvesB_refl s
      · simp only [resolveLoop, hf]
        cases rest with
        | nil => exact resolveLoop_evolves [] s fty (cur ++ [.field head])
        | cons r rs =>
          rcases he : ensureZero head s (cur ++ [.field head]) fty with ⟨s1, out⟩
          have hev : evolvesB s s1 = true := by
            have h := ensureZero_evolves head s (cur ++ [.field head]) fty
            rw [he] at h
            exact h
          rw [he]
          cases out with
          | ok a =>
            rcases a with ⟨p', ty'⟩
            exact evolvesB_trans s s1 _ hev (resolveLoop_evolves (r :: rs) s1 ty' p')
          | err e => exact hev
          | panicked m => exact hev

theorem resolveLoop_extends : ∀ (segs : List String) (s : GoVal)
    (curTy : GoType) (cur : Path) (s' : GoVal) (p : Path) (fty : GoType),
    resolveLoop s curTy cur segs = (s', .ok (p, fty)) → ∃ ext, p = cur ++ ext
  | [], s, curTy, cur, s', p, fty, h => by
    simp only [resolveLoop, Prod.mk.injEq, POut.ok.injEq] at h
    exact ⟨[], by simp [h.2.1.symm]⟩
  | head :: rest, s, curTy, cur, s', p, fty, h => by
    cases curTy <;> try (simp only [resolveLoop, Prod.mk.injEq] at h; simp at h)
    case structT nm fs =>
      cases rest with
      | nil =>
        rcases hf : fs.find head with _ | fty0 <;>
          simp only [resolveLoop, hf, Prod.mk.injEq, POut.ok.injEq] at h
        · simp at h
        · exact ⟨[.field head], h.2.1.symm⟩
      | cons r rs =>
        rcases hf : fs.find head with _ | fty0 <;>
          simp only [resolveLoop, hf] at h
        · simp at h
        · rcases he : ensureZero head s (cur ++ [.field head]) fty0 with ⟨s1, out⟩
          rw [he] at h
          cases out with
          | ok a =>
            rcases a with ⟨p2, ty2⟩
            obtain ⟨ext, hext⟩ := resolveLoop_extends (r :: rs) s1 ty2 p2 s' p fty h
            rcases ensureZero_ok_inv head s _ fty0 s1 p2 ty2 he with
              ⟨_, hp2 | hp2⟩ | ⟨e, _, _, _, hp2, _⟩
            · exact ⟨.field head :: ext, by simp [hext, hp2]⟩
            · exact ⟨.field head :: .deref :: ext, by simp [hext, hp2]⟩
            · exact ⟨.field head :: .deref :: ext, by simp [hext, hp2]⟩
          | err e => simp at h
          | panicked m => simp at h

theorem resolveLoop_pure : ∀ (segs : List String) (s : GoVal) (curTy : GoType)
    (cur : Path) (s' : GoVal) (p : Path) (fty : GoType) (v : GoVal),
    resolveLoop s curTy cur segs = (s', .ok (p, fty)) →
    valAt s p = some v → s' = s
  | [], s, curTy, cur, s', p, fty, v, h, _ => by
    simp only [resolveLoop, Prod.mk.injEq, POut.ok.injEq] at h
    exact h.1.symm
  | head :: rest, s, curTy, cur, s', p, fty, v, h, hv => by
    cases curTy <;> try (simp only [resolveLoop, Prod.mk.injEq] at h; simp at h)
    case structT nm fs =>
      cases rest with
      | nil =>
        rcases hf : fs.find head with _ | fty0 <;>
          simp only [resolveLoop, hf, Prod.mk.injEq, POut.ok.injEq] at h
        · simp at h
        · exact h.1.symm
      | cons r rs =>
        rcases hf : fs.find head with _ | fty0 <;>
          simp only [resolveLoop, hf] at h
        · simp at h
        · rcases he : ensureZero head s (cur ++ [.field head]) fty0 with ⟨s1, out⟩
          rw [he] at h
          cases out with
          | ok a =>
            rcases a with ⟨p2, ty2⟩
            rcases ensureZero_ok_inv head s _ fty0 s1 p2 ty2 he with
              ⟨hs1, _⟩ | ⟨e, _, hnil, _, hp2, _⟩
            · subst hs1
              exact resolveLoop_pure (r :: rs) s1 ty2 p2 s' p fty v h hv
            · -- the object was mutated at a nil pointer, so nothing below
              -- that pointer was readable beforehand
              obtain ⟨ext, hext⟩ := resolveLoop_extends (r :: rs) s1 ty2 p2 s' p fty h
              rw [hext, hp2] at hv
              rw [show (cur ++ [.field head] ++ [.deref]) ++ ext
                  = (cur ++ [.field head]) ++ (.deref :: ext) by simp] at hv
              rw [valAt_append, hnil] at hv
              simp [valAt] at hv
          | err e => simp at h
          | panicked m => simp at h

theorem exportedPath_append (a b : Path) :
    exportedPath (a ++ b) = (exportedPath a && exportedPath b) := by
  simp [exportedPath, List.all_append]

theorem exportedPath_field (n : String) :
    exportedPath [.field n] = isExported n := by
  simp [exportedPath]

theorem exportedPath_deref : exportedPath [.deref] = true := by
  simp [exportedPath]

/-- The exhaustive outcome analysis behind the resolver's contract: on a
well-typed destination reached only through exported names, the loop
either succeeds with a settable handle, or fails with exactly one of the
unknown-field, not-a-struct, or double-indirection errors, naming a
segment of the path — in particular it cannot panic. -/
theorem resolveLoop_cases : ∀ (segs : List String) (s : GoVal) (curTy : GoType)
    (cur : Path) (curV : GoVal),
    valAt s cur = some curV → HasTy curTy curV = true →
    exportedPath cur = true → (∀ x ∈ segs, isExported x = true) → segs ≠ [] →
    (∃ s' p fty, resolveLoop s curTy cur segs = (s', .ok (p, fty)) ∧
        exportedPath p = true)
    ∨ (∃ s' tn sg, sg ∈ segs ∧
        resolveLoop s curTy cur segs = (s', .err (.unknownField tn sg)))
    ∨ (∃ s' sg k, sg ∈ segs ∧
        resolveLoop s curTy cur segs = (s', .err (.notAStruct sg k)))
    ∨ (∃ s' sg t, sg ∈ segs ∧
        resolveLoop s curTy cur segs = (s', .err (.doubleIndirection sg t)))
  | [], _, _, _, _, _, _, _, _, hne => absurd rfl hne
  | head :: rest, s, curTy, cur, curV, hval, hty, hx, hexp, _ => by
    cases curTy
    case urlT =>
      exact .inr (.inl ⟨s, _, head, List.mem_cons_self _ _, rfl⟩)
    case copperURLT =>
      exact .inr (.inl ⟨s, _, head, List.mem_cons_self _ _, rfl⟩)
    case textFailT =>
      exact .inr (.inl ⟨s, _, head, List.mem_cons_self _ _, rfl⟩)
    case structT nm fs =>
      obtain ⟨vs, hcv, htyf⟩ := hasTy_struct_inv nm fs curV hty
      subst hcv
      rcases hf : fs.find head with _ | fty0
      · refine .inr (.inl ⟨s, nm, head, List.mem_cons_self _ _, ?_⟩)
        simp [resolveLoop, hf, GoType.typeName]
      · obtain ⟨fv, hfv, htyfv⟩ := hasTyF_find fs vs head fty0 htyf hf
        have hvalf : valAt s (cur ++ [.field head]) = some fv := by
          rw [valAt_append, hval]
          simp [valAt, hfv]
        have hxf : exportedPath (cur ++ [.field head]) = true := by
          rw [exportedPath_append, hx, exportedPath_field,
            hexp head (List.mem_cons_self _ _)]
          rfl
        cases rest with
        | nil =>
          refine .inl ⟨s, cur ++ [.field head], fty0, ?_, hxf⟩
          simp [resolveLoop, hf]
        | cons r rs =>
          have hexp2 : ∀ x ∈ r :: rs, isExported x = true := fun x hx2 =>
            hexp x (List.mem_cons_of_mem _ hx2)
          have hne2 : r :: rs ≠ ([] : List String) := by simp
          have key : ∀ (t : GoType), t.kind ≠ .ptrK → fs.find head = some t →
              HasTy t fv = true →
              (∃ s' p fty, resolveLoop s (.structT nm fs) cur (head :: r :: rs)
                  = (s', .ok (p, fty)) ∧ exportedPath p = true)
              ∨ (∃ s' tn sg, sg ∈ head :: r :: rs ∧
                  resolveLoop s (.structT nm fs) cur (head :: r :: rs)
                    = (s', .err (.unknownField tn sg)))
              ∨ (∃ s' sg k, sg ∈ head :: r :: rs ∧
                  resolveLoop s (.structT nm fs) cur (head :: r :: rs)
                    = (s', .err (.notAStruct sg k)))
              ∨ (∃ s' sg t', sg ∈ head :: r :: rs ∧
                  resolveLoop s (.structT nm fs) cur (head :: r :: rs)
                    = (s', .err (.doubleIndirection sg t'))) := by
            intro t hk hft htyt
            have hstep : resolveLoop s (.structT nm fs) cur (head :: r :: rs)
                = resolveLoop s t (cur ++ [.field head]) (r :: rs) := by
              simp [resolveLoop, hft, ensureZero_nonptr head s _ t hk]
            rcases resolveLoop_cases (r :: rs) s t (cur ++ [.field head]) fv
                hvalf htyt hxf hexp2 hne2 with
              ⟨s', p, fty, heq, hxp⟩ | ⟨s', tn, sg, hsg, heq⟩ |
              ⟨s', sg, k, hsg, heq⟩ | ⟨s', sg, t', hsg, heq⟩
            · exact .inl ⟨s', p, fty, by rw [hstep, heq], hxp⟩
            · exact .inr (.inl ⟨s', tn, sg, List.mem_cons_of_mem _ hsg,
                by rw [hstep, heq]⟩)
            · exact .inr (.inr (.inl ⟨s', sg, k, List.mem_cons_of_mem _ hsg,
                by rw [hstep, heq]⟩))
            · exact .inr (.inr (.inr ⟨s', sg, t', List.mem_cons_of_mem _ hsg,
                by rw [hstep, heq]⟩))
          cases fty0
          case ptr e =>
            rcases hasTy_ptr_inv e fv htyfv with hnil | ⟨w, hptr, htyw⟩
            · subst hnil
              by_cases hk : e.kind = .ptrK
              · refine .inr (.inr (.inr ⟨s, head, .ptr e,
                  List.mem_cons_self _ _, ?_⟩))
                simp [resolveLoop, hf, ensureZero_nil_dbl head s _ e hvalf hk]
              · obtain ⟨s1, hset, hez⟩ :=
                  ensureZero_nil_mat head s (cur ++ [.field head]) e hvalf hk hxf
                have hstep : resolveLoop s (.structT nm fs) cur (head :: r :: rs)
                    = resolveLoop s1 e (cur ++ [.field head] ++ [.deref]) (r :: rs) := by
                  simp [resolveLoop, hf, hez]
                have hval1 : valAt s1 (cur ++ [.field head] ++ [.deref])
                    = some (zeroVal e) := by
                  rw [valAt_append, valAt_setAt _ s s1 _ hset]
                  simp [valAt]
                have hx1 : exportedPath (cur ++ [.field head] ++ [.deref]) = true := by
                  rw [exportedPath_append, hxf, exportedPath_deref]
                  rfl
                rcases resolveLoop_cases (r :: rs) s1 e _ (zeroVal e) hval1
                    (hasTy_zeroVal e) hx1 hexp2 hne2 with
                  ⟨s', p, fty, heq, hxp⟩ | ⟨s', tn, sg, hsg, heq⟩ |
                  ⟨s', sg, k, hsg, heq⟩ | ⟨s', sg, t, hsg, heq⟩
                · exact .inl ⟨s', p, fty, by rw [hstep, heq], hxp⟩
                · exact .inr (.inl ⟨s', tn, sg, List.mem_cons_of_mem _ hsg,
                    by rw [hstep, heq]⟩)
                · exact .inr (.inr (.inl ⟨s', sg, k, List.mem_cons_of_mem _ hsg,
                    by rw [hstep, heq]⟩))
                · exact .inr (.inr (.inr ⟨s', sg, t, List.mem_cons_of_mem _ hsg,
                    by rw [hstep, heq]⟩))
            · subst hptr
              have hstep : resolveLoop s (.structT nm fs) cur (head :: r :: rs)
                  = resolveLoop s e (cur ++ [.field head] ++ [.deref]) (r :: rs) := by
                simp [resolveLoop, hf, ensureZero_ptrV head s _ e w hvalf]
              have hval1 : valAt s (cur ++ [.field head] ++ [.deref]) = some w := by
                rw [valAt_append, hvalf]
                simp [valAt]
              have htyw' : HasTy e w = true := by
                simpa [HasTy] using htyw
              have hx1 : exportedPath (cur ++ [.field head] ++ [.deref]) = true := by
                rw [exportedPath_append, hxf, exportedPath_deref]
                rfl
              rcases resolveLoop_cases (r :: rs) s e _ w hval1 htyw' hx1
                  hexp2 hne2 with
                ⟨s', p, fty, heq, hxp⟩ | ⟨s', tn, sg, hsg, heq⟩ |
                ⟨s', sg, k, hsg, heq⟩ | ⟨s', sg, t, hsg, heq⟩
              · exact .inl ⟨s', p, fty, by rw [hstep, heq], hxp⟩
              · exact .inr (.inl ⟨s', tn, sg, List.mem_cons_of_mem _ hsg,
                  by rw [hstep, heq]⟩)
              · exact .inr (.inr (.inl ⟨s', sg, k, List.mem_cons_of_mem _ hsg,
                  by rw [hstep, heq]⟩))
              · exact .inr (.inr (.inr ⟨s', sg, t, List.mem_cons_of_mem _ hsg,
                  by rw [hstep, heq]⟩))
          all_goals exact key _ (by simp [GoType.kind]) hf htyfv
    all_goals exact .inr (.inr (.inl ⟨s, head, _, List.mem_cons_self _ _, rfl⟩))

/-! Concrete fixtures mirroring the structs of the package's test
suite (`mixConf` and `nested` in the tests). -/

/-- The test suite's `nested` struct. -/
def nestedTy : GoType := .structT "nested"
  (.cons "Value" .stringT (.cons "ValuePtr" (.ptr .stringT) .nil))

/-- The test suite's `mixConf` struct. -/
def mixConfTy : GoType := .structT "mixConf"
  (.cons "hidden" .stringT
  (.cons "Text" .stringT
  (.cons "EmptyInterface" .ifaceEmpty
  (.cons "Interface" (.ifaceOther "someIFace")
  (.cons "DoublePointer" (.ptr (.ptr nestedTy))
  (.cons "NestedPtr" (.ptr nestedTy)
  (.cons "Nested" nestedTy
  (.cons "TextFail" .textFailT
  (.cons "URL" (.ptr .urlT)
  (.cons "CopperURL" (.ptr .copperURLT) .nil))))))))))

/-- A zero `mixConf` destination object. -/
def mixZero : GoVal := zeroVal mixConfTy

/-- A `mixConf` whose `Text` field is preset to the default. -/
def mixDefault : GoVal :=
  (setAt mixZero [.field "Text"] (.str "default")).getD mixZero

/-- A `mixConf` whose `DoublePointer` field holds a non-nil outer
pointer to a nil inner pointer. -/
def mixDp : GoVal :=
  (setAt mixZero [.field "DoublePointer"] (.ptrV .nilPtr)).getD mixZero

/-- A destination struct with a slice-typed field. -/
def sliceConfTy : GoType := .structT "sliceConf" (.cons "S" (.sliceT .intT) .nil)

/-- A destination struct with a map-typed field. -/
def mapConfTy : GoType :=
  .structT "mapConf" (.cons "M" (.mapT .stringT .intT) .nil)

/-! Claim theorems. -/

/-- Claim C1, counterexample: the claim says resolving through a
pointer-to-pointer field fails with the double-indirection error
regardless of nilness; but with a non-nil outer pointer the code
dereferences once without complaint and then fails with a different
error (not-a-struct on the inner pointer). -/
theorem resolve_nonnil_double_pointer_counterexample :
    resolve mixConfTy mixDp "DoublePointer.Value"
      = (mixDp, .err (.notAStruct "Value" .ptrK)) :=
  rfl

/-- Claim C1, amended: `ensureZero` (through which both `resolve` and
`assign` handle pointer fields) fails with the double-indirection error
exactly when the pointer-to-pointer field is nil; a non-nil one is
dereferenced once and traversal continues without that error. -/
theorem ensureZero_double_indirection (name : String) (s : GoVal) (p : Path)
    (e : GoType) :
    (valAt s p = some .nilPtr →
      ensureZero name s p (.ptr (.ptr e))
        = (s, .err (.doubleIndirection name (.ptr (.ptr e)))))
    ∧ (∀ w, valAt s p = some (.ptrV w) →
      ensureZero name s p (.ptr (.ptr e)) = (s, .ok (p ++ [.deref], .ptr e))) :=
  ⟨fun h => ensureZero_nil_dbl name s p (.ptr e) h rfl,
   fun w h => ensureZero_ptrV name s p (.ptr e) w h⟩

/-- Witness for the amended C1 at the `DoublePointer` field of
`mixConf`: nil outer pointer gives the double-indirection error, non-nil
outer pointer succeeds. -/
theorem ensureZero_double_indirection_witness :
    ensureZero "DoublePointer" mixZero [.field "DoublePointer"]
        (.ptr (.ptr nestedTy))
      = (mixZero, .err (.doubleIndirection "DoublePointer" (.ptr (.ptr nestedTy))))
    ∧ ensureZero "DoublePointer" mixDp [.field "DoublePointer"]
        (.ptr (.ptr nestedTy))
      = (mixDp, .ok ([.field "DoublePointer", .deref], .ptr nestedTy)) :=
  ⟨(ensureZero_double_indirection "DoublePointer" mixZero
      [.field "DoublePointer"] nestedTy).1 rfl,
   (ensureZero_double_indirection "DoublePointer" mixDp
      [.field "DoublePointer"] nestedTy).2 .nilPtr rfl⟩

/-- Claim C2, counterexample: on the path `DoublePointer.Value` (whose
non-terminal segment names an existing field) resolution fails with the
double-indirection error, which is neither of the two errors the claim
allows, so the claimed dichotomy is incomplete. -/
theorem resolve_outcomes_counterexample :
    resolve mixConfTy mixZero "DoublePointer.Value"
      = (mixZero,
          .err (.doubleIndirection "DoublePointer" (.ptr (.ptr nestedTy)))) :=
  rfl

/-- Claim C2, amended: on a well-typed destination and a nonempty
segment list all of whose segments are exported names, the resolver
(`resolve name` is `resolveLoop` at the root position on the split
segments) either succeeds with a settable handle or fails with an
unknown-field, not-a-struct, or unsupported-double-indirection error
naming a segment of the path; it never panics and never returns any
other error. -/
theorem resolve_outcomes (segs : List String) (rootTy : GoType) (s : GoVal)
    (hty : HasTy rootTy s = true) (hne : segs ≠ [])
    (hexp : ∀ x ∈ segs, isExported x = true) :
    (∃ s' p fty, resolveLoop s rootTy [] segs = (s', .ok (p, fty)) ∧
        exportedPath p = true)
    ∨ (∃ s' tn sg, sg ∈ segs ∧
        resolveLoop s rootTy [] segs = (s', .err (.unknownField tn sg)))
    ∨ (∃ s' sg k, sg ∈ segs ∧
        resolveLoop s rootTy [] segs = (s', .err (.notAStruct sg k)))
    ∨ (∃ s' sg t, sg ∈ segs ∧
        resolveLoop s rootTy [] segs = (s', .err (.doubleIndirection sg t))) :=
  resolveLoop_cases segs s rootTy [] s (by simp [valAt]) hty (by simp [exportedPath])
    hexp hne

/-- Witness for the amended C2 on `mixConf` with the path
`NestedPtr.Value`. -/
theorem resolve_outcomes_witness :
    (∃ s' p fty, resolveLoop mixZero mixConfTy [] ["NestedPtr", "Value"]
        = (s', .ok (p, fty)) ∧ exportedPath p = true)
    ∨ (∃ s' tn sg, sg ∈ ["NestedPtr", "Value"] ∧
        resolveLoop mixZero mixConfTy [] ["NestedPtr", "Value"]
          = (s', .err (.unknownField tn sg)))
    ∨ (∃ s' sg k, sg ∈ ["NestedPtr", "Value"] ∧
        resolveLoop mixZero mixConfTy [] ["NestedPtr", "Value"]
          = (s', .err (.notAStruct sg k)))
    ∨ (∃ s' sg t, sg ∈ ["NestedPtr", "Value"] ∧
        resolveLoop mixZero mixConfTy [] ["NestedPtr", "Value"]
          = (s', .err (.doubleIndirection sg t))) :=
  resolve_outcomes ["NestedPtr", "Value"] mixConfTy mixZero rfl
    (by simp) (by decide)

/-- Claim C10: `Require` is not total — on a field of slice type (a
non-comparable kind that is neither pointer nor boolean) the zero-value
presence check panics instead of returning an error or passing. -/
theorem require_slice_not_total :
    Require sliceConfTy (zeroVal sliceConfTy) ["S"]
      = (zeroVal sliceConfTy,
          .panicked "runtime error: comparing uncomparable type") :=
  rfl

theorem evolvesB_ptrV_inv (a b : GoVal) (h : evolvesB (.ptrV a) b = true) :
    ∃ w, b = .ptrV w ∧ evolvesB a w = true := by
  cases b <;> simp only [evolvesB, beq_iff_eq, reduceCtorEq] at h
  case ptrV w => exact ⟨w, rfl, h⟩

/-- Writing through a pointer handle: setting the pointee leaves a
non-nil pointer holding exactly the written value. -/
theorem set_pointee (s1 : GoVal) (p : Path) (z x : GoVal)
    (hv : valAt s1 p = some (.ptrV z)) :
    ∃ s2, setAt s1 (p ++ [.deref]) x = some s2 ∧
      valAt s2 p = some (.ptrV x) := by
  have hd := setAt_snoc_deref p s1 z x hv
  obtain ⟨s2, hs2⟩ := setAt_exists p s1 _ (.ptrV x) hv
  exact ⟨s2, by rw [hd]; exact hs2, valAt_setAt p s1 s2 _ hs2⟩

/-- Claim C3: the conversion chain is tried in its fixed order and the
first applicable strategy is terminal.  A plain string target is stored
verbatim by direct assignment; a target implementing text decoding
returns the text decoder's error without ever consulting the JSON
fallback (the statement holds for every JSON decoder `ju`); a URL-like
target likewise stops at the binary-decode strategy. -/
theorem assign_strategy_order :
    (∀ (ub : String → Except String String)
        (ju : String → GoType → GoVal → Except String GoVal)
        (s : GoVal) (p : Path) (w : GoVal) (val : String),
        exportedPath p = true → valAt s p = some w →
        ∃ s2, setAt s p (.str val) = some s2 ∧
          assignWith ub ju s p .stringT val = (s2, .ok ()))
    ∧ (∀ ub ju (s : GoVal) (p : Path) (val : String),
        exportedPath p = true →
        assignWith ub ju s p .textFailT val
          = (s, .err (.textErr "born to fail")))
    ∧ (∀ ub ju (s : GoVal) (p : Path) (val m : String),
        exportedPath p = true → ub val = .error m →
        assignWith ub ju s p .urlT val = (s, .err (.binaryErr m))) := by
  refine ⟨?_, ?_, ?_⟩
  · intro ub ju s p w val hx hv
    obtain ⟨s2, hs2⟩ := setAt_exists p s w (.str val) hv
    refine ⟨s2, hs2, ?_⟩
    simp [assignWith, ensureZero, hx, stringAssignable, stringCoerce, hs2]
  · intro ub ju s p val hx
    simp [assignWith, ensureZero, hx, stringAssignable, convertibleToURLType,
      implementsTextUnmarshaler, unmarshalTextModel]
  · intro ub ju s p val m hx hub
    simp [assignWith, ensureZero, hx, stringAssignable, convertibleToURLType,
      hub]

/-- Witness for C3 on `mixConf`: the string field `Text` is stored
verbatim, the `TextFail` field propagates the failing text decode, and
the malformed URL input of a lone colon stops at the binary decoder. -/
theorem assign_strategy_order_witness :
    (∃ s2, setAt mixZero [.field "Text"] (.str "foo") = some s2 ∧
      assignWith urlUnmarshalBinaryModel jsonUnmarshalModel mixZero
        [.field "Text"] .stringT "foo" = (s2, .ok ()))
    ∧ assignWith urlUnmarshalBinaryModel jsonUnmarshalModel mixZero
        [.field "TextFail"] .textFailT "foo"
        = (mixZero, .err (.textErr "born to fail"))
    ∧ assignWith urlUnmarshalBinaryModel jsonUnmarshalModel mixZero
        [.field "URL", .deref] .urlT ":"
        = (mixZero, .err (.binaryErr "parse error: missing protocol scheme")) :=
  ⟨assign_strategy_order.1 urlUnmarshalBinaryModel jsonUnmarshalModel mixZero
      [.field "Text"] (.str "") "foo" rfl rfl,
   assign_strategy_order.2.1 urlUnmarshalBinaryModel jsonUnmarshalModel mixZero
      [.field "TextFail"] "foo" rfl,
   assign_strategy_order.2.2 urlUnmarshalBinaryModel jsonUnmarshalModel mixZero
      [.field "URL", .deref] ":" "parse error: missing protocol scheme" rfl rfl⟩

/-- Claim C4, counterexample: a mapping entry whose environment key is
unset still fails the whole call when its field path does not resolve,
because resolution runs before the environment lookup. -/
theorem environment_unset_key_counterexample :
    Environment (fun _ => none) mixConfTy mixZero [("Missing", "UNSET_KEY")]
      = (mixZero,
          .err (.couldNotResolve "Missing" (.unknownField "mixConf" "Missing"))) :=
  rfl

/-- Claim C4, amended: for a mapping entry whose path resolves and whose
environment key is unset, the entry is skipped without failing — the
call continues with the remaining entries from the post-resolution
state — and the target field is byte-for-byte unchanged whenever it
existed before the call (resolution of an already materialized path
does not mutate the object at all). -/
theorem environment_unset_key_skips (env : String → Option String)
    (rootTy : GoType) (s s' : GoVal) (name key : String) (p : Path)
    (fty : GoType) (rest : List (String × String))
    (hkey : env key = none)
    (hres : resolve rootTy s name = (s', .ok (p, fty))) :
    Environment env rootTy s ((name, key) :: rest)
      = Environment env rootTy s' rest
    ∧ ∀ v, valAt s p = some v → valAt s' p = some v := by
  constructor
  · simp [Environment, hres, hkey]
  · intro v hv
    have hpure : s' = s := resolveLoop_pure (splitSegs name) s rootTy [] s' p fty v hres hv
    rw [hpure]
    exact hv

/-- Witness for the amended C4: `Text` preset to the default, mapped to
an unset key, is skipped and keeps its value. -/
theorem environment_unset_key_skips_witness :
    Environment (fun _ => none) mixConfTy mixDefault
        [("Text", "__TEST_MISSING_ENV_VAR")]
      = Environment (fun _ => none) mixConfTy mixDefault []
    ∧ valAt mixDefault [.field "Text"] = some (.str "default") :=
  ⟨(environment_unset_key_skips (fun _ => none) mixConfTy mixDefault mixDefault
      "Text" "__TEST_MISSING_ENV_VAR" [.field "Text"] .stringT [] rfl rfl).1,
   (environment_unset_key_skips (fun _ => none) mixConfTy mixDefault mixDefault
      "Text" "__TEST_MISSING_ENV_VAR" [.field "Text"] .stringT [] rfl rfl).2
      (.str "default") rfl⟩

/-- Claim C5: traversing a nil optional-reference field at a
non-terminal segment stores a freshly allocated zero value into that
field, and the mutation persists in the returned object no matter how
the rest of the resolution goes (in particular when a later segment
fails): afterwards the field holds a non-nil pointer whose pointee
evolved from the zero value by materialization only.  (`resolve name`
is `resolveLoop` at the root position, so `cur` covers the nil field
sitting at any depth of the path.) -/
theorem resolve_materializes_intermediate (s : GoVal) (nm : String)
    (fs : FieldsT) (cur : Path) (f : String) (e : GoType)
    (rest : List String)
    (hfind : fs.find f = some (.ptr e))
    (he : e.kind ≠ .ptrK)
    (hnil : valAt s (cur ++ [.field f]) = some .nilPtr)
    (hx : exportedPath (cur ++ [.field f]) = true)
    (hrest : rest ≠ []) :
    ∃ w, valAt (resolveLoop s (.structT nm fs) cur (f :: rest)).1
        (cur ++ [.field f]) = some (.ptrV w)
      ∧ evolvesB (zeroVal e) w = true := by
  cases rest with
  | nil => exact absurd rfl hrest
  | cons r rs =>
    obtain ⟨s1, hset, hez⟩ :=
      ensureZero_nil_mat f s (cur ++ [.field f]) e hnil he hx
    have hstep : resolveLoop s (.structT nm fs) cur (f :: r :: rs)
        = resolveLoop s1 e (cur ++ [.field f] ++ [.deref]) (r :: rs) := by
      simp [resolveLoop, hfind, hez]
    have hv1 : valAt s1 (cur ++ [.field f]) = some (.ptrV (zeroVal e)) :=
      valAt_setAt _ s s1 _ hset
    have hev : evolvesB s1
        (resolveLoop s1 e (cur ++ [.field f] ++ [.deref]) (r :: rs)).1 = true :=
      resolveLoop_evolves (r :: rs) s1 e _
    obtain ⟨w', hw', hvw'⟩ := evolvesB_valAt (cur ++ [.field f]) s1 _ _ hev hv1
    obtain ⟨w, hwptr, hzw⟩ := evolvesB_ptrV_inv (zeroVal e) w' hvw'
    subst hwptr
    rw [hstep]
    exact ⟨w, hw', hzw⟩

/-- Witness for C5: resolving `NestedPtr.ValuePtr.Nope` on a zero
`mixConf` materializes `NestedPtr` even though the final segment then
fails with a not-a-struct error. -/
theorem resolve_materializes_intermediate_witness :
    (∃ w, valAt (resolveLoop mixZero mixConfTy [] ["NestedPtr", "ValuePtr", "Nope"]).1
        [.field "NestedPtr"] = some (.ptrV w)
      ∧ evolvesB (zeroVal nestedTy) w = true)
    ∧ (resolveLoop mixZero mixConfTy [] ["NestedPtr", "ValuePtr", "Nope"]).2
        = .err (.notAStruct "Nope" .stringK) :=
  ⟨resolve_materializes_intermediate mixZero "mixConf"
    (.cons "hidden" .stringT
    (.cons "Text" .stringT
    (.cons "EmptyInterface" .ifaceEmpty
    (.cons "Interface" (.ifaceOther "someIFace")
    (.cons "DoublePointer" (.ptr (.ptr nestedTy))
    (.cons "NestedPtr" (.ptr nestedTy)
    (.cons "Nested" nestedTy
    (.cons "TextFail" .textFailT
    (.cons "URL" (.ptr .urlT)
    (.cons "CopperURL" (.ptr .copperURLT) .nil))))))))))
    [] "NestedPtr" nestedTy ["ValuePtr", "Nope"]
    rfl (by decide) rfl rfl (by decide), rfl⟩

/-- Claim C6: a terminal nil optional-reference field is returned by the
resolver as-is — the final segment is never materialized and the state
is untouched — while `assign` first materializes such a terminal field
to a freshly allocated zero value, so that whatever conversion strategy
then runs (successfully or not) acts on a valid non-nil target. -/
theorem terminal_pointer_handling :
    (∀ (s : GoVal) (nm : String) (fs : FieldsT) (cur : Path) (f : String)
        (fty : GoType), fs.find f = some fty →
        resolveLoop s (.structT nm fs) cur [f]
          = (s, .ok (cur ++ [.field f], fty)))
    ∧ (∀ (ub : String → Except String String)
        (ju : String → GoType → GoVal → Except String GoVal)
        (s : GoVal) (p : Path) (e : GoType) (val : String),
        valAt s p = some .nilPtr → e.kind ≠ .ptrK → exportedPath p = true →
        ∃ s2 out w, assignWith ub ju s p (.ptr e) val = (s2, out) ∧
          valAt s2 p = some (.ptrV w)) := by
  constructor
  · intro s nm fs cur f fty hfind
    simp [resolveLoop, hfind]
  · intro ub ju s p e val hnil hk hx
    obtain ⟨s1, hset, hez⟩ := ensureZero_nil_mat "target" s p e hnil hk hx
    have hv1 : valAt s1 p = some (.ptrV (zeroVal e)) := valAt_setAt p s s1 _ hset
    have hvd : valAt s1 (p ++ [.deref]) = some (zeroVal e) := by
      rw [valAt_append, hv1]
      simp [valAt]
    have hxd : exportedPath (p ++ [.deref]) = true := by
      rw [exportedPath_append, hx, exportedPath_deref]
      rfl
    by_cases h1 : stringAssignable e = true
    · obtain ⟨s2, hs2, hval2⟩ := set_pointee s1 p _ (stringCoerce e val) hv1
      exact ⟨s2, .ok (), stringCoerce e val,
        by simp [assignWith, hez, hxd, h1, hs2], hval2⟩
    · by_cases h2 : convertibleToURLType e = true
      · cases hub : ub val with
        | ok u =>
          obtain ⟨s2, hs2, hval2⟩ := set_pointee s1 p _ (.urlV u) hv1
          exact ⟨s2, .ok (), .urlV u,
            by simp [assignWith, hez, hxd, h1, h2, hub, hs2], hval2⟩
        | error m =>
          exact ⟨s1, .err (.binaryErr m), zeroVal e,
            by simp [assignWith, hez, hxd, h1, h2, hub], hv1⟩
      · by_cases h3 : implementsTextUnmarshaler e = true
        · cases hut : unmarshalTextModel ub e val with
          | ok w2 =>
            obtain ⟨s2, hs2, hval2⟩ := set_pointee s1 p _ w2 hv1
            exact ⟨s2, .ok (), w2,
              by simp [assignWith, hez, hxd, h1, h2, h3, hut, hs2], hval2⟩
          | error m =>
            exact ⟨s1, .err (.textErr m), zeroVal e,
              by simp [assignWith, hez, hxd, h1, h2, h3, hut], hv1⟩
        · cases hju : ju val e (zeroVal e) with
          | ok w2 =>
            obtain ⟨s2, hs2, hval2⟩ := set_pointee s1 p _ w2 hv1
            exact ⟨s2, .ok (), w2,
              by simp [assignWith, hez, hxd, h1, h2, h3, hvd, hju, hs2], hval2⟩
          | error m =>
            exact ⟨s1, .err (.jsonErr m), zeroVal e,
              by simp [assignWith, hez, hxd, h1, h2, h3, hvd, hju], hv1⟩

/-- Witness for C6: resolving the terminal nil `CopperURL` field leaves
it nil and the state unchanged, while assigning to the terminal nil
`NestedPtr` field materializes it (here the conversion then fails with
the JSON fallback, yet the pointer stays allocated). -/
theorem terminal_pointer_handling_witness :
    resolveLoop mixZero mixConfTy [] ["CopperURL"]
      = (mixZero, .ok ([.field "CopperURL"], .ptr .copperURLT))
    ∧ ∃ s2 out w,
        assignWith urlUnmarshalBinaryModel jsonUnmarshalModel mixZero
          [.field "NestedPtr"] (.ptr nestedTy) "foo" = (s2, out)
        ∧ valAt s2 [.field "NestedPtr"] = some (.ptrV w) :=
  ⟨terminal_pointer_handling.1 mixZero "mixConf"
    (.cons "hidden" .stringT
    (.cons "Text" .stringT
    (.cons "EmptyInterface" .ifaceEmpty
    (.cons "Interface" (.ifaceOther "someIFace")
    (.cons "DoublePointer" (.ptr (.ptr nestedTy))
    (.cons "NestedPtr" (.ptr nestedTy)
    (.cons "Nested" nestedTy
    (.cons "TextFail" .textFailT
    (.cons "URL" (.ptr .urlT)
    (.cons "CopperURL" (.ptr .copperURLT) .nil))))))))))
    [] "CopperURL" (.ptr .copperURLT) rfl,
   terminal_pointer_handling.2 urlUnmarshalBinaryModel jsonUnmarshalModel
    mixZero [.field "NestedPtr"] nestedTy "foo" rfl (by decide) rfl⟩

/-- Claim C7, counterexample: a resolved field of map type (neither
pointer nor boolean) makes `Require` panic — it neither fails with a
missing/empty error nor passes — so the claimed trichotomy does not
cover every destination object. -/
theorem require_checks_counterexample :
    Require mapConfTy (zeroVal mapConfTy) ["M"]
      = (zeroVal mapConfTy,
          .panicked "runtime error: comparing uncomparable type") :=
  rfl

/-- Claim C7, amended: `Require` checks the names in caller order and
stops at the first failure; provided the resolved field is reached only
through exported names and has a comparable type, a resolved nil
pointer fails as nil, a non-nil pointer passes, a boolean always
passes, and any other field fails as empty exactly when it equals the
zero value of its declared type (for comparable kinds the interface
comparison the code performs agrees with structural equality against
the zero value). -/
theorem require_checks (rootTy : GoType) (s s' : GoVal) (name : String)
    (rest : List String) (p : Path) (fty : GoType)
    (hres : resolve rootTy s name = (s', .ok (p, fty)))
    (hx : exportedPath p = true) (hcmp : comparableTy fty = true) :
    (fty.kind = .ptrK →
      (valAt s' p = some .nilPtr →
        Require rootTy s (name :: rest) = (s', .err (.isNil name)))
      ∧ (∀ w, valAt s' p = some (.ptrV w) →
        Require rootTy s (name :: rest) = Require rootTy s' rest))
    ∧ (fty.kind = .boolK →
        Require rootTy s (name :: rest) = Require rootTy s' rest)
    ∧ (fty.kind ≠ .ptrK → fty.kind ≠ .boolK → ∀ v, valAt s' p = some v →
        (eqZeroB fty v = true →
          Require rootTy s (name :: rest) = (s', .err (.isEmpty name)))
        ∧ (eqZeroB fty v = false →
          Require rootTy s (name :: rest) = Require rootTy s' rest)) := by
  refine ⟨fun hk => ⟨fun hnil => ?_, fun w hw => ?_⟩, fun hk => ?_,
    fun hk hb v hv => ⟨fun hz => ?_, fun hz => ?_⟩⟩
  · simp [Require, hres, hk, hnil]
  · simp [Require, hres, hk, hw]
  · have hk' : fty.kind ≠ .ptrK := by simp [hk]
    simp [Require, hres, hk, hk']
  · simp [Require, hres, hk, hb, hv, hx, eqZero, hcmp, hz]
  · simp [Require, hres, hk, hb, hv, hx, eqZero, hcmp, hz]

/-- Witness for the amended C7: on a zero `mixConf`, requiring `Text`
fails as empty. -/
theorem require_checks_witness :
    Require mixConfTy mixZero ["Text"] = (mixZero, .err (.isEmpty "Text")) :=
  (((require_checks mixConfTy mixZero mixZero "Text" [] [.field "Text"]
      .stringT rfl rfl rfl).2.2 (by decide) (by decide) (.str "") rfl).1) rfl

/-- Claim C8: loading a nonexistent file is a silent no-op (state
untouched, no error) in optional mode and a missing-file error in
required mode, while any other read error fails in every mode. -/
theorem file_modes (fs : String → ReadResult) (s : GoVal) (filename : String)
    (unm : Option RootUnmarshaler) :
    (fs filename = .notExist →
      File fs s filename FileOptional unm = (s, .ok ())
      ∧ File fs s filename FileRequired unm = (s, .err (.missingFile filename)))
    ∧ (∀ (m : String) (mode : FileMode), fs filename = .otherErr m →
      File fs s filename mode unm = (s, .err (.readFailed m))) := by
  constructor
  · intro h
    constructor
    · simp [File, h]
    · simp [File, h, FileRequired, FileOptional]
      decide
  · intro m mode h
    simp [File, h]

/-- Witness for C8 with a filesystem on which every path is missing,
and one on which every read fails with a directory error. -/
theorem file_modes_witness :
    (File (fun _ => .notExist) mixZero "foobar.json" FileOptional none
        = (mixZero, .ok ())
      ∧ File (fun _ => .notExist) mixZero "foobar.json" FileRequired none
        = (mixZero, .err (.missingFile "foobar.json")))
    ∧ File (fun _ => .otherErr "is a directory") mixZero "./" FileRequired none
        = (mixZero, .err (.readFailed "is a directory")) :=
  ⟨(file_modes (fun _ => .notExist) mixZero "foobar.json" none).1 rfl,
   (file_modes (fun _ => .otherErr "is a directory") mixZero "./" none).2
    "is a directory" FileRequired rfl⟩

theorem applyOptions_append_ok : ∀ (xs ys : List ConfigOption) (ty : GoType)
    (s : GoVal) (ty' : GoType) (s1 : GoVal),
    applyOptions ty s xs = .ok (ty', s1) →
    applyOptions ty s (xs ++ ys) = applyOptions ty' s1 ys
  | [], ys, ty, s, ty', s1, h => by
    simp only [applyOptions, POut.ok.injEq, Prod.mk.injEq] at h
    obtain ⟨h1, h2⟩ := h
    subst h1
    subst h2
    simp
  | o :: xs, ys, ty, s, ty', s1, h => by
    rcases ho : o ty s with ⟨s2, out⟩
    cases out with
    | ok u =>
      cases u
      simp only [applyOptions, ho] at h
      rw [List.cons_append]
      simp only [applyOptions, ho]
      exact applyOptions_append_ok xs ys ty s2 ty' s1 h
    | err e =>
      simp only [applyOptions, ho, reduceCtorEq] at h
    | panicked m =>
      simp only [applyOptions, ho, reduceCtorEq] at h

/-- Claim C9: `New` rejects a nil destination, a non-pointer
destination, a pointer to a non-struct, and a nil pointer (whose
dereference is not a struct value), each with an error and no
configuration object; otherwise the options run strictly in the order
given, and the first failing option aborts construction with exactly
that option's error (later options are never reflected in the result). -/
theorem new_construction :
    (∀ opts, New .nilConf opts = .err (.errMsg "conf cannot be nil"))
    ∧ (∀ (ty : GoType) (v : GoVal) opts, ty.kind ≠ .ptrK →
        New (.confVal ty v) opts
          = .err (.errMsg "conf must be a pointer to a struct"))
    ∧ (∀ (e : GoType) (v : GoVal) opts, e.kind ≠ .structK →
        New (.confVal (.ptr e) v) opts
          = .err (.errMsg "conf must be a pointer to a struct"))
    ∧ (∀ (e : GoType) opts, New (.confVal (.ptr e) .nilPtr) opts
        = .err (.errMsg "conf must be a pointer to a struct"))
    ∧ (∀ (e : GoType) (w : GoVal) (pre : List ConfigOption) (o : ConfigOption)
        (post : List ConfigOption) (s1 s2 : GoVal) (err : Err),
        e.kind = .structK → applyOptions e w pre = .ok (e, s1) →
        o e s1 = (s2, .err err) →
        New (.confVal (.ptr e) (.ptrV w)) (pre ++ o :: post) = .err err) := by
  refine ⟨fun opts => rfl, ?_, ?_, ?_, ?_⟩
  · intro ty v opts hk
    cases ty <;> first | rfl | exact absurd rfl hk
  · intro e v opts hk
    cases v
    case ptrV w =>
      show (if GoType.kind e = Kind.structK then applyOptions e w opts
        else .err (.errMsg "conf must be a pointer to a struct"))
        = POut.err (.errMsg "conf must be a pointer to a struct")
      exact if_neg hk
    all_goals rfl
  · intro e opts
    rfl
  · intro e w pre o post s1 s2 err hk hpre ho
    have happ := applyOptions_append_ok pre (o :: post) e w e s1 hpre
    show (if GoType.kind e = Kind.structK then applyOptions e w (pre ++ o :: post)
      else .err (.errMsg "conf must be a pointer to a struct")) = POut.err err
    rw [if_pos hk, happ]
    simp [applyOptions, ho]

/-- Witness for C9: the nil destination, a by-value struct, a pointer
to a string, a nil struct pointer, and an option list whose second
option fails. -/
theorem new_construction_witness :
    New .nilConf [] = .err (.errMsg "conf cannot be nil")
    ∧ New (.confVal mixConfTy mixZero) []
        = .err (.errMsg "conf must be a pointer to a struct")
    ∧ New (.confVal (.ptr .stringT) (.ptrV (.str ""))) []
        = .err (.errMsg "conf must be a pointer to a struct")
    ∧ New (.confVal (.ptr mixConfTy) .nilPtr) []
        = .err (.errMsg "conf must be a pointer to a struct")
    ∧ New (.confVal (.ptr mixConfTy) (.ptrV mixZero))
        [fun _ s => (s, .ok ()), fun _ s => (s, .err (.errMsg "option failed")),
         fun _ s => (s, .ok ())]
        = .err (.errMsg "option failed") :=
  ⟨new_construction.1 [],
   new_construction.2.1 mixConfTy mixZero [] (by decide),
   new_construction.2.2.1 .stringT (.ptrV (.str "")) [] (by decide),
   new_construction.2.2.2.1 mixConfTy [],
   new_construction.2.2.2.2 mixConfTy mixZero [fun _ s => (s, .ok ())]
    (fun _ s => (s, .err (.errMsg "option failed"))) [fun _ s => (s, .ok ())]
    mixZero mixZero (.errMsg "option failed") rfl rfl rfl⟩

end Copperhead
